import Mathlib

/-!
# Verification of `img-sort` (media grouping by capture date)

Shallow embedding of the core of the `img-sort` repository:

* `src/image.rs`   — the `Image` value (file name + source path);
* `src/tree.rs`    — the `Tree` grouping index (`insert`, `size`, `save`,
  `get_month`, `build_tree`) over `BTreeMap`s keyed by `(year, month)`,
  `year`, or `month`;
* `src/lib.rs`     — the older in-crate `Tree` (identical `insert`/`size`),
  `build_tree`, `build_glob_walker`, `find`, `get_datetime_original`, `run`.

Rust's `BTreeMap` is embedded as a strictly-sorted association list: the
`entry(k).or_insert_with(Vec::new).push(v)` idiom becomes `mapInsert`, which
appends to the existing bucket or inserts a fresh singleton bucket at the
sorted position; iteration order of the `BTreeMap` is the list order.
Machine integers: Rust `i32` years become `Int`, `u32` months and `usize`
sizes become `Nat` (all values reachable in this program are tiny, far from
any wrap-around, so modular reduction is never observable).

Filesystem effects (`save`) are embedded as traces of operations plus an
explicit failure oracle; panics (`unwrap`, `unreachable!`) are explicit
outcome constructors.
-/

namespace ImgSort

/-- `src/image.rs` `Image`: file name plus source path.  (The older
`src/lib.rs` `Image` carries only the path; where the lib-side code builds
an `Image` we fill `name` with the path's file name, which that code never
reads.) -/
structure Image where
  name : String
  path : String
deriving DecidableEq, Repr

/-- One `BTreeMap<K, Vec<Image>>`, embedded as an association list that is
kept strictly sorted by key (Rust `BTreeMap` iterates in ascending key
order). -/
abbrev BucketMap (κ : Type) : Type := List (κ × List Image)

/-- `tree.entry(k).or_insert_with(Vec::new).push(image)`: append `image` to
the bucket of key `k`, creating a singleton bucket at the sorted position
when `k` is absent. -/
def mapInsert {κ : Type} [LinearOrder κ] (k : κ) (image : Image) :
    BucketMap κ → BucketMap κ
  | [] => [(k, [image])]
  | (k₀, v) :: rest =>
    if k = k₀ then (k₀, v ++ [image]) :: rest
    else if k < k₀ then (k, [image]) :: (k₀, v) :: rest
    else (k₀, v) :: mapInsert k image rest

/-- Total number of items across buckets: `tree.values().map(Vec::len).sum()`. -/
def bucketSum {κ : Type} (m : BucketMap κ) : Nat :=
  (m.map (fun e => e.2.length)).sum

/-- Look up the bucket stored for key `k` (observer used to state what
`insert` did; Rust exposes the same information through iteration). -/
def findBucket {κ : Type} [DecidableEq κ] (m : BucketMap κ) (k : κ) :
    Option (List Image) :=
  match m with
  | [] => none
  | (k₀, v) :: rest => if k = k₀ then some v else findBucket rest k

/-- The keys in iteration order. -/
def mapKeys {κ : Type} (m : BucketMap κ) : List κ :=
  m.map Prod.fst

/-- `src/tree.rs` `Tree` (and the structurally identical enum in
`src/lib.rs`): the grouping index, a tagged variant fixing one of three key
shapes for its whole lifetime.  The year+month key is ordered
lexicographically, as Rust's derived `Ord` on the tuple `(i32, u32)` is. -/
inductive Tree where
  | yearMonth : BucketMap (Int ×ₗ Nat) → Tree
  | year : BucketMap Int → Tree
  | month : BucketMap Nat → Tree

/-- `Tree::insert` (`src/tree.rs` lines 15–29 = `src/lib.rs` lines 32–46):
projects the raw `(year, month)` pair onto the index's key shape and appends
the image to that key's bucket. -/
def Tree.insert (t : Tree) (datetime : Int × Nat) (image : Image) : Tree :=
  match t with
  | .yearMonth m => .yearMonth (mapInsert (toLex datetime) image m)
  | .year m => .year (mapInsert datetime.1 image m)
  | .month m => .month (mapInsert datetime.2 image m)

/-- `Tree::size` (`src/tree.rs` lines 31–37 = `src/lib.rs` lines 48–54). -/
def Tree.size (t : Tree) : Nat :=
  match t with
  | .yearMonth m => bucketSum m
  | .year m => bucketSum m
  | .month m => bucketSum m

/-- Apply a whole sequence of `insert` calls (the discovery loop drives the
index exactly like this fold). -/
def Tree.insertAll (t : Tree) (l : List ((Int × Nat) × Image)) : Tree :=
  l.foldl (fun t e => t.insert e.1 e.2) t

theorem bucketSum_mapInsert {κ : Type} [LinearOrder κ] (k : κ) (image : Image)
    (m : BucketMap κ) : bucketSum (mapInsert k image m) = bucketSum m + 1 := by
  induction m with
  | nil => simp [mapInsert, bucketSum]
  | cons e rest ih =>
    obtain ⟨k₀, v⟩ := e
    by_cases h : k = k₀
    · simp [mapInsert, h, bucketSum]
      omega
    · by_cases h' : k < k₀
      · simp [mapInsert, h, h', bucketSum]
        omega
      · simp only [mapInsert, if_neg h, if_neg h', bucketSum, List.map_cons,
          List.sum_cons] at *
        omega

theorem Tree.size_insert (t : Tree) (dt : Int × Nat) (image : Image) :
    (t.insert dt image).size = t.size + 1 := by
  cases t <;> simp [Tree.insert, Tree.size, bucketSum_mapInsert]

theorem Tree.size_insertAll (t : Tree) (l : List ((Int × Nat) × Image)) :
    (t.insertAll l).size = t.size + l.length := by
  induction l generalizing t with
  | nil => simp [Tree.insertAll]
  | cons e rest ih =>
    simpa [Tree.insertAll, Tree.size_insert, Nat.add_assoc, Nat.add_comm 1]
      using ih (t.insert e.1 e.2)

/-- Buckets observed by iterating a year+month tree (`for ((year, month), images) in tree`). -/
def Tree.ymBuckets : Tree → BucketMap (Int ×ₗ Nat)
  | .yearMonth m => m
  | _ => []

/-- Buckets observed by iterating a year tree. -/
def Tree.yBuckets : Tree → BucketMap Int
  | .year m => m
  | _ => []

/-- Buckets observed by iterating a month tree. -/
def Tree.mBuckets : Tree → BucketMap Nat
  | .month m => m
  | _ => []

/-- The discovery loop over a fixed key projection, at the `BucketMap` level. -/
def buildMap {κ : Type} [LinearOrder κ] (f : Int × Nat → κ)
    (l : List ((Int × Nat) × Image)) (m : BucketMap κ) : BucketMap κ :=
  l.foldl (fun m e => mapInsert (f e.1) e.2 m) m

theorem insertAll_yearMonth (m : BucketMap (Int ×ₗ Nat))
    (l : List ((Int × Nat) × Image)) :
    (Tree.yearMonth m).insertAll l =
      Tree.yearMonth (buildMap (fun dt => toLex dt) l m) := by
  induction l generalizing m with
  | nil => rfl
  | cons e rest ih => simpa [Tree.insertAll, Tree.insert, buildMap] using ih _

theorem insertAll_year (m : BucketMap Int) (l : List ((Int × Nat) × Image)) :
    (Tree.year m).insertAll l = Tree.year (buildMap Prod.fst l m) := by
  induction l generalizing m with
  | nil => rfl
  | cons e rest ih => simpa [Tree.insertAll, Tree.insert, buildMap] using ih _

theorem insertAll_month (m : BucketMap Nat) (l : List ((Int × Nat) × Image)) :
    (Tree.month m).insertAll l = Tree.month (buildMap Prod.snd l m) := by
  induction l generalizing m with
  | nil => rfl
  | cons e rest ih => simpa [Tree.insertAll, Tree.insert, buildMap] using ih _

theorem mem_mapKeys_mapInsert {κ : Type} [LinearOrder κ] (k x : κ)
    (image : Image) (m : BucketMap κ) :
    x ∈ mapKeys (mapInsert k image m) ↔ x = k ∨ x ∈ mapKeys m := by
  induction m with
  | nil => simp [mapInsert, mapKeys]
  | cons e rest ih =>
    obtain ⟨k₀, v⟩ := e
    by_cases h : k = k₀
    · subst h
      simp [mapInsert, mapKeys]
    · by_cases h' : k < k₀
      · simp [mapInsert, h, h', mapKeys]
      · simp only [mapInsert, if_neg h, if_neg h', mapKeys, List.map_cons,
          List.mem_cons] at *
        rw [ih]
        tauto

theorem sorted_mapKeys_mapInsert {κ : Type} [LinearOrder κ] (k : κ)
    (image : Image) (m : BucketMap κ)
    (h : (mapKeys m).Sorted (· < ·)) :
    (mapKeys (mapInsert k image m)).Sorted (· < ·) := by
  induction m with
  | nil => simp [mapInsert, mapKeys]
  | cons e rest ih =>
    obtain ⟨k₀, v⟩ := e
    simp only [mapKeys, List.map_cons, List.sorted_cons] at h
    obtain ⟨hall, hrest⟩ := h
    by_cases heq : k = k₀
    · subst heq
      have hstep : mapInsert k image ((k, v) :: rest) = (k, v ++ [image]) :: rest := by
        simp [mapInsert]
      rw [hstep]
      simp only [mapKeys, List.map_cons, List.sorted_cons]
      exact ⟨hall, hrest⟩
    · by_cases hlt : k < k₀
      · have hstep : mapInsert k image ((k₀, v) :: rest) =
            (k, [image]) :: (k₀, v) :: rest := by
          simp [mapInsert, heq, hlt]
        rw [hstep]
        simp only [mapKeys, List.map_cons, List.sorted_cons, List.mem_cons]
        refine ⟨?_, hall, hrest⟩
        rintro b (rfl | hb)
        · exact hlt
        · exact hlt.trans (hall b hb)
      · have hgt : k₀ < k := by
          rcases lt_trichotomy k k₀ with h | h | h
          · exact absurd h hlt
          · exact absurd h heq
          · exact h
        have hstep : mapInsert k image ((k₀, v) :: rest) =
            (k₀, v) :: mapInsert k image rest := by
          simp [mapInsert, heq, hlt]
        rw [hstep]
        simp only [mapKeys, List.map_cons, List.sorted_cons]
        refine ⟨?_, ih hrest⟩
        intro b hb
        rcases (mem_mapKeys_mapInsert k b image rest).mp hb with rfl | hb
        · exact hgt
        · exact hall b hb

theorem sorted_mapKeys_buildMap {κ : Type} [LinearOrder κ]
    (f : Int × Nat → κ) (l : List ((Int × Nat) × Image)) (m : BucketMap κ)
    (h : (mapKeys m).Sorted (· < ·)) :
    (mapKeys (buildMap f l m)).Sorted (· < ·) := by
  induction l generalizing m with
  | nil => exact h
  | cons e rest ih =>
    exact ih _ (sorted_mapKeys_mapInsert _ _ _ h)

theorem mem_mapKeys_buildMap {κ : Type} [LinearOrder κ]
    (f : Int × Nat → κ) (l : List ((Int × Nat) × Image)) (m : BucketMap κ)
    (x : κ) :
    x ∈ mapKeys (buildMap f l m) ↔ x ∈ mapKeys m ∨ x ∈ l.map (fun e => f e.1) := by
  induction l generalizing m with
  | nil => simp [buildMap]
  | cons e rest ih =>
    simp only [buildMap, List.foldl_cons, List.map_cons, List.mem_cons]
    rw [show List.foldl (fun m e => mapInsert (f e.1) e.2 m) (mapInsert (f e.1) e.2 m) rest
          = buildMap f rest (mapInsert (f e.1) e.2 m) from rfl, ih]
    rw [mem_mapKeys_mapInsert]
    tauto

/-- Two strictly-sorted lists with the same members are equal. -/
theorem eq_of_sorted_lt_of_mem {κ : Type} [LinearOrder κ] :
    ∀ {l₁ l₂ : List κ}, l₁.Sorted (· < ·) → l₂.Sorted (· < ·) →
      (∀ a, a ∈ l₁ ↔ a ∈ l₂) → l₁ = l₂
  | [], [], _, _, _ => rfl
  | [], b :: t₂, _, _, hmem => by
    exact absurd ((hmem b).mpr (List.mem_cons_self b t₂)) (List.not_mem_nil b)
  | a :: t₁, [], _, _, hmem => by
    exact absurd ((hmem a).mp (List.mem_cons_self a t₁)) (List.not_mem_nil a)
  | a :: t₁, b :: t₂, h₁, h₂, hmem => by
    simp only [List.sorted_cons] at h₁ h₂
    obtain ⟨ha, h₁⟩ := h₁
    obtain ⟨hb, h₂⟩ := h₂
    have hab : a = b := by
      rcases List.mem_cons.mp ((hmem a).mp (List.mem_cons_self a t₁)) with h | h
      · exact h
      · have hba : b < a := hb a h
        rcases List.mem_cons.mp ((hmem b).mpr (List.mem_cons_self b t₂)) with h' | h'
        · exact h'.symm
        · exact absurd (ha b h') (lt_asymm hba)
    subst hab
    have htail : ∀ x, x ∈ t₁ ↔ x ∈ t₂ := by
      intro x
      constructor
      · intro hx
        rcases List.mem_cons.mp ((hmem x).mp (List.mem_cons_of_mem a hx)) with rfl | hx'
        · exact absurd (ha x hx) (lt_irrefl x)
        · exact hx'
      · intro hx
        rcases List.mem_cons.mp ((hmem x).mpr (List.mem_cons_of_mem a hx)) with rfl | hx'
        · exact absurd (hb x hx) (lt_irrefl x)
        · exact hx'
    rw [eq_of_sorted_lt_of_mem h₁ h₂ htail]

theorem mapKeys_buildMap_perm {κ : Type} [LinearOrder κ]
    (f : Int × Nat → κ) (l₁ l₂ : List ((Int × Nat) × Image))
    (hp : l₁.Perm l₂) :
    mapKeys (buildMap f l₁ []) = mapKeys (buildMap f l₂ []) := by
  refine eq_of_sorted_lt_of_mem
    (sorted_mapKeys_buildMap f l₁ [] (by simp [mapKeys]))
    (sorted_mapKeys_buildMap f l₂ [] (by simp [mapKeys])) ?_
  intro a
  rw [mem_mapKeys_buildMap, mem_mapKeys_buildMap]
  have : ∀ x, x ∈ l₁.map (fun e => f e.1) ↔ x ∈ l₂.map (fun e => f e.1) :=
    fun x => (hp.map (fun e => f e.1)).mem_iff
  simp [mapKeys, this a]

/-- C1: for every sequence of `insert` calls applied to an initially empty
grouping index — whichever of the three key shapes it has — `size()` returns
exactly the number of `insert` calls performed: no item is lost and no item
is counted in more than one bucket. -/
theorem size_counts_all_inserts (l : List ((Int × Nat) × Image)) :
    ((Tree.yearMonth []).insertAll l).size = l.length ∧
    ((Tree.year []).insertAll l).size = l.length ∧
    ((Tree.month []).insertAll l).size = l.length := by
  refine ⟨?_, ?_, ?_⟩ <;>
    rw [Tree.size_insertAll] <;> simp [Tree.size, bucketSum]

theorem findBucket_eq_none_of_not_mem {κ : Type} [DecidableEq κ]
    (m : BucketMap κ) (k : κ) (h : k ∉ mapKeys m) : findBucket m k = none := by
  induction m with
  | nil => rfl
  | cons e rest ih =>
    obtain ⟨k₀, v⟩ := e
    simp only [mapKeys, List.map_cons, List.mem_cons, not_or] at h
    simp [findBucket, h.1, ih h.2]

theorem findBucket_mapInsert_self {κ : Type} [LinearOrder κ] (k : κ)
    (image : Image) (m : BucketMap κ)
    (hs : (mapKeys m).Sorted (· < ·)) :
    findBucket (mapInsert k image m) k =
      some ((findBucket m k).getD [] ++ [image]) := by
  induction m with
  | nil => simp [mapInsert, findBucket]
  | cons e rest ih =>
    obtain ⟨k₀, v⟩ := e
    simp only [mapKeys, List.map_cons, List.sorted_cons] at hs
    obtain ⟨hall, hrest⟩ := hs
    by_cases h : k = k₀
    · subst h
      simp [mapInsert, findBucket]
    · by_cases h' : k < k₀
      · have hnone : findBucket rest k = none := by
          refine findBucket_eq_none_of_not_mem rest k (fun hmem => ?_)
          exact absurd (h'.trans (hall k hmem)) (lt_irrefl k)
        simp [mapInsert, h, h', findBucket, hnone]
      · simp [mapInsert, h, h', findBucket, ih hrest]

theorem findBucket_mapInsert_other {κ : Type} [LinearOrder κ] (k k' : κ)
    (image : Image) (m : BucketMap κ) (h : k' ≠ k) :
    findBucket (mapInsert k image m) k' = findBucket m k' := by
  induction m with
  | nil => simp [mapInsert, findBucket, h]
  | cons e rest ih =>
    obtain ⟨k₀, v⟩ := e
    by_cases heq : k = k₀
    · subst heq
      simp [mapInsert, findBucket, h]
    · by_cases hlt : k < k₀
      · simp [mapInsert, heq, hlt, findBucket, h]
      · simp [mapInsert, heq, hlt, findBucket, ih]

/-- Example image used by concrete witnesses and counterexamples. -/
def imgA : Image := { name := "a.jpg", path := "srcdir/a.jpg" }

/-- Second example image. -/
def imgB : Image := { name := "b.jpg", path := "srcdir/b.jpg" }

/-- C2: for every sequence of `insert` calls into an index of any fixed key
shape, iterating the populated index (as `print` and `save` do) yields its
keys in strictly ascending order of the key's component(s) — lexicographic
on `(year, month)` for the year+month shape — and this order is independent
of the order in which the inserts occurred. -/
theorem iteration_ascending_and_order_independent :
    (∀ l : List ((Int × Nat) × Image),
      ((((Tree.yearMonth []).insertAll l).ymBuckets).map (fun e => ofLex e.1)).Sorted
          (fun a b => a.1 < b.1 ∨ (a.1 = b.1 ∧ a.2 < b.2)) ∧
      (mapKeys ((Tree.year []).insertAll l).yBuckets).Sorted (· < ·) ∧
      (mapKeys ((Tree.month []).insertAll l).mBuckets).Sorted (· < ·)) ∧
    (∀ l₁ l₂ : List ((Int × Nat) × Image), l₁.Perm l₂ →
      mapKeys ((Tree.yearMonth []).insertAll l₁).ymBuckets =
        mapKeys ((Tree.yearMonth []).insertAll l₂).ymBuckets ∧
      mapKeys ((Tree.year []).insertAll l₁).yBuckets =
        mapKeys ((Tree.year []).insertAll l₂).yBuckets ∧
      mapKeys ((Tree.month []).insertAll l₁).mBuckets =
        mapKeys ((Tree.month []).insertAll l₂).mBuckets) := by
  constructor
  · intro l
    refine ⟨?_, ?_, ?_⟩
    · rw [insertAll_yearMonth]
      simp only [Tree.ymBuckets]
      have hs := sorted_mapKeys_buildMap (fun dt => toLex dt) l [] (by simp [mapKeys])
      have hs' : List.Pairwise
          (fun (e e' : (Int ×ₗ Nat) × List Image) => e.1 < e'.1)
          (buildMap (fun dt => toLex dt) l []) := List.pairwise_map.mp hs
      exact List.pairwise_map.mpr (hs'.imp (fun h => (Prod.Lex.lt_iff _ _).mp h))
    · rw [insertAll_year]
      exact sorted_mapKeys_buildMap Prod.fst l [] (by simp [mapKeys])
    · rw [insertAll_month]
      exact sorted_mapKeys_buildMap Prod.snd l [] (by simp [mapKeys])
  · intro l₁ l₂ hp
    refine ⟨?_, ?_, ?_⟩
    · rw [insertAll_yearMonth, insertAll_yearMonth]
      exact mapKeys_buildMap_perm _ l₁ l₂ hp
    · rw [insertAll_year, insertAll_year]
      exact mapKeys_buildMap_perm _ l₁ l₂ hp
    · rw [insertAll_month, insertAll_month]
      exact mapKeys_buildMap_perm _ l₁ l₂ hp

/-- Witness for C2 at two concrete insert sequences that are permutations of
each other. -/
theorem iteration_ascending_and_order_independent_witness :
    ([(((2024 : Int), (5 : Nat)), imgA), ((2023, 1), imgB)]).Perm
        [((2023, 1), imgB), ((2024, 5), imgA)] ∧
    (mapKeys ((Tree.yearMonth []).insertAll
          [((2024, 5), imgA), ((2023, 1), imgB)]).ymBuckets =
      mapKeys ((Tree.yearMonth []).insertAll
          [((2023, 1), imgB), ((2024, 5), imgA)]).ymBuckets ∧
    mapKeys ((Tree.year []).insertAll
          [((2024, 5), imgA), ((2023, 1), imgB)]).yBuckets =
      mapKeys ((Tree.year []).insertAll
          [((2023, 1), imgB), ((2024, 5), imgA)]).yBuckets ∧
    mapKeys ((Tree.month []).insertAll
          [((2024, 5), imgA), ((2023, 1), imgB)]).mBuckets =
      mapKeys ((Tree.month []).insertAll
          [((2023, 1), imgB), ((2024, 5), imgA)]).mBuckets) :=
  ⟨List.Perm.swap _ _ _,
   iteration_ascending_and_order_independent.2 _ _ (List.Perm.swap _ _ _)⟩

/-- C3: `insert` projects the `(year, month)` pair onto the index's fixed
key shape (year+month keeps both, year keeps only the year, month keeps only
the month) and appends the item to the end of that projected key's bucket,
creating the bucket if absent; every other bucket is untouched.
Consequently, in the year (resp. month) shape two inserts sharing the year
(resp. month) behave identically whatever the other component is. -/
theorem insert_projects_and_appends :
    (∀ (m : BucketMap (Int ×ₗ Nat)) (y : Int) (mo : Nat) (image : Image),
      (mapKeys m).Sorted (· < ·) →
      findBucket ((Tree.yearMonth m).insert (y, mo) image).ymBuckets (toLex (y, mo)) =
          some ((findBucket m (toLex (y, mo))).getD [] ++ [image]) ∧
      ∀ k : Int ×ₗ Nat, k ≠ toLex (y, mo) →
        findBucket ((Tree.yearMonth m).insert (y, mo) image).ymBuckets k =
          findBucket m k) ∧
    (∀ (m : BucketMap Int) (y : Int) (mo : Nat) (image : Image),
      (mapKeys m).Sorted (· < ·) →
      findBucket ((Tree.year m).insert (y, mo) image).yBuckets y =
          some ((findBucket m y).getD [] ++ [image]) ∧
      ∀ k : Int, k ≠ y →
        findBucket ((Tree.year m).insert (y, mo) image).yBuckets k =
          findBucket m k) ∧
    (∀ (m : BucketMap Nat) (y : Int) (mo : Nat) (image : Image),
      (mapKeys m).Sorted (· < ·) →
      findBucket ((Tree.month m).insert (y, mo) image).mBuckets mo =
          some ((findBucket m mo).getD [] ++ [image]) ∧
      ∀ k : Nat, k ≠ mo →
        findBucket ((Tree.month m).insert (y, mo) image).mBuckets k =
          findBucket m k) ∧
    (∀ (m : BucketMap Int) (y : Int) (mo mo' : Nat) (image : Image),
      (Tree.year m).insert (y, mo) image = (Tree.year m).insert (y, mo') image) ∧
    (∀ (m : BucketMap Nat) (y y' : Int) (mo : Nat) (image : Image),
      (Tree.month m).insert (y, mo) image = (Tree.month m).insert (y', mo) image) := by
  refine ⟨?_, ?_, ?_, ?_, ?_⟩
  · intro m y mo image hs
    exact ⟨findBucket_mapInsert_self _ _ _ hs,
      fun k hk => findBucket_mapInsert_other _ k _ _ hk⟩
  · intro m y mo image hs
    exact ⟨findBucket_mapInsert_self _ _ _ hs,
      fun k hk => findBucket_mapInsert_other _ k _ _ hk⟩
  · intro m y mo image hs
    exact ⟨findBucket_mapInsert_self _ _ _ hs,
      fun k hk => findBucket_mapInsert_other _ k _ _ hk⟩
  · intro m y mo mo' image
    rfl
  · intro m y y' mo image
    rfl

/-- Witness for C3 at concrete inputs: inserting `imgA` at `(2024, 5)` into
each empty shape. -/
theorem insert_projects_and_appends_witness :
    (((2023 : Int), (7 : Nat)) : Int ×ₗ Nat) ≠ toLex ((2024 : Int), (5 : Nat)) ∧
    findBucket ((Tree.yearMonth []).insert (2024, 5) imgA).ymBuckets
        (toLex (2024, 5)) =
      some ((findBucket ([] : BucketMap (Int ×ₗ Nat)) (toLex (2024, 5))).getD []
        ++ [imgA]) ∧
    findBucket ((Tree.yearMonth []).insert (2024, 5) imgA).ymBuckets
        ((2023, 7) : Int ×ₗ Nat) =
      findBucket ([] : BucketMap (Int ×ₗ Nat)) ((2023, 7) : Int ×ₗ Nat) ∧
    findBucket ((Tree.year []).insert (2024, 5) imgA).yBuckets 2024 =
      some ((findBucket ([] : BucketMap Int) 2024).getD [] ++ [imgA]) ∧
    findBucket ((Tree.month []).insert (2024, 5) imgA).mBuckets 5 =
      some ((findBucket ([] : BucketMap Nat) 5).getD [] ++ [imgA]) ∧
    (Tree.year []).insert (2024, 5) imgA = (Tree.year []).insert (2024, 11) imgA ∧
    (Tree.month []).insert (2024, 5) imgA = (Tree.month []).insert (1999, 5) imgA :=
  ⟨by decide,
   (insert_projects_and_appends.1 [] 2024 5 imgA (by simp [mapKeys])).1,
   (insert_projects_and_appends.1 [] 2024 5 imgA (by simp [mapKeys])).2 _ (by decide),
   (insert_projects_and_appends.2.1 [] 2024 5 imgA (by simp [mapKeys])).1,
   (insert_projects_and_appends.2.2.1 [] 2024 5 imgA (by simp [mapKeys])).1,
   insert_projects_and_appends.2.2.2.1 [] 2024 5 11 imgA,
   insert_projects_and_appends.2.2.2.2 [] 2024 1999 5 imgA⟩

/-- `src/tree.rs` `get_month` (lines 110–126): English month names for 1–12,
`"Unknown"` for everything else (in particular the sentinel `0`). -/
def get_month (month : Nat) : String :=
  match month with
  | 1 => "January"
  | 2 => "February"
  | 3 => "March"
  | 4 => "April"
  | 5 => "May"
  | 6 => "June"
  | 7 => "July"
  | 8 => "August"
  | 9 => "September"
  | 10 => "October"
  | 11 => "November"
  | 12 => "December"
  | _ => "Unknown"

namespace Lib

/-- `src/lib.rs` `build_tree` (lines 57–66): `if months && years … else if
years … else Month`. -/
def build_tree (years months : Bool) : Tree :=
  if months && years then Tree.yearMonth []
  else if years then Tree.year []
  else Tree.month []

end Lib

namespace TreeRs

/-- `src/tree.rs` `build_tree` (lines 128–135).  `none` models the
`unreachable!("Invalid combination of years and months")` panic taken on
`(false, false)`. -/
def build_tree (years months : Bool) : Option Tree :=
  match years, months with
  | true, true => some (Tree.yearMonth [])
  | true, false => some (Tree.year [])
  | false, true => some (Tree.month [])
  | false, false => none

end TreeRs

/-- C10: the two `build_tree` implementations return the same variant for
every flag pair with at least one flag set — year+month when both are set,
year when only `years`, month when only `months` — but diverge on
`(years = false, months = false)`: the `lib.rs` version returns an empty
month tree while the `tree.rs` version panics via `unreachable!`. -/
theorem build_tree_implementations_agree_except_both_false :
    Lib.build_tree true true = Tree.yearMonth [] ∧
    Lib.build_tree true false = Tree.year [] ∧
    Lib.build_tree false true = Tree.month [] ∧
    (∀ years months : Bool, years = true ∨ months = true →
      TreeRs.build_tree years months = some (Lib.build_tree years months)) ∧
    Lib.build_tree false false = Tree.month [] ∧
    TreeRs.build_tree false false = none := by
  refine ⟨rfl, rfl, rfl, ?_, rfl, rfl⟩
  rintro years months h
  cases years <;> cases months <;>
    simp_all [Lib.build_tree, TreeRs.build_tree]

/-- Witness for C10 at the flag pair `(years := true, months := false)`. -/
theorem build_tree_implementations_agree_witness :
    ((true : Bool) = true ∨ (false : Bool) = true) ∧
    TreeRs.build_tree true false = some (Lib.build_tree true false) :=
  ⟨Or.inl rfl,
   build_tree_implementations_agree_except_both_false.2.2.2.1 true false (Or.inl rfl)⟩

/-- One filesystem operation attempted by `Tree::save`:
`fs::create_dir_all` or `fs::copy`.  (There is no removal operation: `save`
never deletes or rolls anything back.) -/
inductive FsOp where
  | mkdirAll : String → FsOp
  | copy : String → String → FsOp
deriving DecidableEq, Repr

/-- `PathBuf::join` for the plain relative components this program builds. -/
def pathJoin (a b : String) : String := a ++ "/" ++ b

/-- The per-key destination directories `save` derives, in iteration
(ascending-key) order, paired with each key's bucket:
year+month keys map to `dest/<year>/<get_month month>`, year keys to
`dest/<year>`, month keys to `dest/<get_month month>`
(`src/tree.rs` lines 68–104). -/
def Tree.entryDirs (t : Tree) (dest : String) : List (String × List Image) :=
  match t with
  | .yearMonth m =>
    m.map (fun e =>
      (pathJoin (pathJoin dest (toString (ofLex e.1).1)) (get_month (ofLex e.1).2), e.2))
  | .year m => m.map (fun e => (pathJoin dest (toString e.1), e.2))
  | .month m => m.map (fun e => (pathJoin dest (get_month e.1), e.2))

/-- The operations one key contributes: create its directory, then copy each
bucket item (in stored order) to `<dir>/<fileName>`. -/
def entryOps (e : String × List Image) : List FsOp :=
  FsOp.mkdirAll e.1 ::
    e.2.map (fun image => FsOp.copy image.path (pathJoin e.1 image.name))

/-- Every operation `save` would attempt, in program order. -/
def saveOps (t : Tree) (dest : String) : List FsOp :=
  ((t.entryDirs dest).map entryOps).flatten

/-- The inner copy loop of `save`: copies in order, stopping at the first
failure (the `?` operator) and reporting the operations performed plus the
error, if any.  `fs` is the filesystem: `none` means the operation
succeeds, `some e` that it fails with I/O error `e`. -/
def copyLoop (fs : FsOp → Option String) (dir : String) :
    List Image → List FsOp × Option String
  | [] => ([], none)
  | image :: rest =>
    let op := FsOp.copy image.path (pathJoin dir image.name)
    match fs op with
    | some e => ([], some e)
    | none =>
      let r := copyLoop fs dir rest
      (op :: r.1, r.2)

/-- The outer loop of `save`: per key, `create_dir_all` then the copy loop,
stopping at the first failure. -/
def saveLoop (fs : FsOp → Option String) :
    List (String × List Image) → List FsOp × Option String
  | [] => ([], none)
  | (dir, images) :: rest =>
    match fs (FsOp.mkdirAll dir) with
    | some e => ([], some e)
    | none =>
      match copyLoop fs dir images with
      | (done, some e) => (FsOp.mkdirAll dir :: done, some e)
      | (done, none) =>
        let r := saveLoop fs rest
        (FsOp.mkdirAll dir :: done ++ r.1, r.2)

/-- `Tree::save` (`src/tree.rs` lines 68–107) under the fallible filesystem
`fs`: the operations actually performed, and the propagated I/O error if
one occurred. -/
def Tree.save (t : Tree) (dest : String) (fs : FsOp → Option String) :
    List FsOp × Option String :=
  saveLoop fs (t.entryDirs dest)

/-- Reference semantics: run a flat operation list in order, stopping at the
first failure. -/
def execOps (fs : FsOp → Option String) : List FsOp → List FsOp × Option String
  | [] => ([], none)
  | op :: rest =>
    match fs op with
    | some e => ([], some e)
    | none =>
      let r := execOps fs rest
      (op :: r.1, r.2)

theorem execOps_cons_ok (fs : FsOp → Option String) (op : FsOp)
    (rest : List FsOp) (h : fs op = none) :
    execOps fs (op :: rest) = (op :: (execOps fs rest).1, (execOps fs rest).2) := by
  simp [execOps, h]

theorem execOps_append (fs : FsOp → Option String) (l₁ l₂ : List FsOp) :
    execOps fs (l₁ ++ l₂) =
      if (execOps fs l₁).2.isSome then execOps fs l₁
      else ((execOps fs l₁).1 ++ (execOps fs l₂).1, (execOps fs l₂).2) := by
  induction l₁ with
  | nil => simp [execOps]
  | cons op rest ih =>
    cases hop : fs op with
    | some e => simp [execOps, hop]
    | none =>
      simp only [List.cons_append, execOps, hop]
      by_cases h : (execOps fs rest).2.isSome <;> simp [ih, h]

theorem copyLoop_eq_execOps (fs : FsOp → Option String) (dir : String)
    (images : List Image) :
    copyLoop fs dir images =
      execOps fs (images.map (fun image => FsOp.copy image.path (pathJoin dir image.name))) := by
  induction images with
  | nil => rfl
  | cons image rest ih =>
    simp only [copyLoop, List.map_cons, execOps]
    cases fs (FsOp.copy image.path (pathJoin dir image.name)) <;> simp [ih]

theorem saveLoop_eq_execOps (fs : FsOp → Option String)
    (entries : List (String × List Image)) :
    saveLoop fs entries = execOps fs ((entries.map entryOps).flatten) := by
  induction entries with
  | nil => rfl
  | cons e rest ih =>
    obtain ⟨dir, images⟩ := e
    simp only [saveLoop, List.map_cons, List.flatten_cons, entryOps, List.cons_append]
    cases hmk : fs (FsOp.mkdirAll dir) with
    | some err => simp [execOps, hmk]
    | none =>
      rw [copyLoop_eq_execOps fs dir images, execOps_cons_ok fs _ _ hmk, execOps_append]
      cases hc : execOps fs
          (images.map (fun image => FsOp.copy image.path (pathJoin dir image.name))) with
      | mk done errOpt =>
        cases errOpt with
        | some e => simp [hc]
        | none => simp [hc, ih]

theorem execOps_spec (fs : FsOp → Option String) (ops : List FsOp) :
    execOps fs ops =
      (ops.takeWhile (fun op => (fs op).isNone),
       (ops.find? (fun op => (fs op).isSome)).bind fs) := by
  induction ops with
  | nil => simp [execOps]
  | cons op rest ih =>
    cases hop : fs op with
    | some e =>
      simp [execOps, hop, List.takeWhile_cons, List.find?_cons]
    | none =>
      simp [execOps, hop, List.takeWhile_cons, List.find?_cons, ih]

/-- C8: during `save`, the first directory-creation or file-copy failure
aborts the whole materialization, returning that operation's underlying I/O
error; exactly the operations preceding the failing one were performed
(they are a prefix of the planned operation sequence — everything already
copied stays, there is no rollback). -/
theorem save_aborts_at_first_failure_no_rollback (t : Tree) (dest : String)
    (fs : FsOp → Option String) :
    (t.save dest fs).1 = (saveOps t dest).takeWhile (fun op => (fs op).isNone) ∧
    (t.save dest fs).2 = ((saveOps t dest).find? (fun op => (fs op).isSome)).bind fs ∧
    (t.save dest fs).1 <+: saveOps t dest := by
  have h : t.save dest fs = execOps fs (saveOps t dest) :=
    saveLoop_eq_execOps fs (t.entryDirs dest)
  rw [h, execOps_spec]
  exact ⟨rfl, rfl, List.takeWhile_prefix _⟩

/-- Counterexample to C5 as stated: an item in the sentinel bucket `(0, 0)`
is NOT copied to `<dest>/Unknown/Unknown/<fileName>`.  `save` renders the
year component with `to_string`, so the sentinel year `0` becomes the
literal `"0"` and the item is copied to `<dest>/0/Unknown/<fileName>`. -/
theorem sentinel_year_renders_as_zero :
    saveOps ((Tree.yearMonth []).insertAll [((0, 0), imgB)]) "dest" =
      [FsOp.mkdirAll "dest/0/Unknown",
       FsOp.copy "srcdir/b.jpg" "dest/0/Unknown/b.jpg"] ∧
    FsOp.copy "srcdir/b.jpg" "dest/Unknown/Unknown/b.jpg" ∉
      saveOps ((Tree.yearMonth []).insertAll [((0, 0), imgB)]) "dest" := by
  constructor
  · rfl
  · decide

/-- C5 amended: for a populated year+month index, `save` derives the
destination directory of key `(y, mo)` as
`destinationRoot/<y rendered by to_string>/<get_month mo>`, where months
1–12 map to the English month names and the sentinel month `0` maps to
`"Unknown"`; an item dated `(2024, 1)` is copied to
`<dest>/2024/January/<fileName>`, while an item in the sentinel bucket
`(0, 0)` is copied to `<dest>/0/Unknown/<fileName>` (the sentinel year is
rendered `"0"`, not `"Unknown"`). -/
theorem save_destination_directories :
    (get_month 1 = "January" ∧ get_month 2 = "February" ∧ get_month 3 = "March" ∧
     get_month 4 = "April" ∧ get_month 5 = "May" ∧ get_month 6 = "June" ∧
     get_month 7 = "July" ∧ get_month 8 = "August" ∧ get_month 9 = "September" ∧
     get_month 10 = "October" ∧ get_month 11 = "November" ∧
     get_month 12 = "December" ∧ get_month 0 = "Unknown") ∧
    (∀ (m : BucketMap (Int ×ₗ Nat)) (dest : String) (y : Int) (mo : Nat)
        (images : List Image) (image : Image),
      (toLex (y, mo), images) ∈ m → image ∈ images →
      FsOp.copy image.path
          (pathJoin (pathJoin (pathJoin dest (toString y)) (get_month mo)) image.name) ∈
        saveOps (Tree.yearMonth m) dest) ∧
    saveOps ((Tree.yearMonth []).insertAll [((2024, 1), imgA)]) "dest" =
      [FsOp.mkdirAll "dest/2024/January",
       FsOp.copy "srcdir/a.jpg" "dest/2024/January/a.jpg"] ∧
    saveOps ((Tree.yearMonth []).insertAll [((0, 0), imgB)]) "dest" =
      [FsOp.mkdirAll "dest/0/Unknown",
       FsOp.copy "srcdir/b.jpg" "dest/0/Unknown/b.jpg"] := by
  refine ⟨by decide, ?_, rfl, rfl⟩
  intro m dest y mo images image hm hi
  simp only [saveOps, Tree.entryDirs, List.mem_flatten, List.mem_map]
  refine ⟨entryOps (pathJoin (pathJoin dest (toString y)) (get_month mo), images),
    ⟨(pathJoin (pathJoin dest (toString y)) (get_month mo), images),
     ⟨(toLex (y, mo), images), hm, rfl⟩, rfl⟩, ?_⟩
  simp only [entryOps, List.mem_cons, List.mem_map]
  exact Or.inr ⟨image, hi, rfl⟩

/-- Witness for C5 (amended) at a concrete one-bucket index. -/
theorem save_destination_directories_witness :
    ((toLex ((2024 : Int), (1 : Nat)), [imgA]) ∈
        ([(toLex ((2024 : Int), (1 : Nat)), [imgA])] : BucketMap (Int ×ₗ Nat)) ∧
      imgA ∈ [imgA]) ∧
    FsOp.copy imgA.path
        (pathJoin (pathJoin (pathJoin "dest" (toString (2024 : Int))) (get_month 1))
          imgA.name) ∈
      saveOps (Tree.yearMonth [(toLex (2024, 1), [imgA])]) "dest" :=
  ⟨⟨List.mem_singleton.mpr rfl, List.mem_singleton.mpr rfl⟩,
   save_destination_directories.2.1 _ "dest" 2024 1 [imgA] imgA
     (List.mem_singleton.mpr rfl) (List.mem_singleton.mpr rfl)⟩

/-- The ASCII digit character for a digit value (`n ≤ 9`). -/
def digitChar (n : Nat) : Char := Char.ofNat (48 + n)

/-- Modelled from the `kamadak-exif` crate's `atou16` (that crate is a
dependency, not part of this repository): the numeric value of a nonempty
all-digit ASCII span, failing otherwise. -/
def digitsVal (cs : List Char) : Option Nat :=
  if cs ≠ [] ∧ cs.all Char.isDigit then
    some (cs.foldl (fun n c => n * 10 + (c.toNat - 48)) 0)
  else none

/-- The first all-blank `DateTime` ASCII value `from_ascii` rejects
(`"    :  :     :  :  "`). -/
def blankDateTime1 : List Char :=
  [' ', ' ', ' ', ' ', ':', ' ', ' ', ':', ' ', ' ', ' ',
   ' ', ' ', ':', ' ', ' ', ':', ' ', ' ']

/-- The second all-blank value `from_ascii` rejects (19 spaces). -/
def blankDateTime2 : List Char :=
  [' ', ' ', ' ', ' ', ' ', ' ', ' ', ' ', ' ', ' ', ' ',
   ' ', ' ', ' ', ' ', ' ', ' ', ' ', ' ']

/-- Modelled from `kamadak-exif`'s `DateTime::from_ascii`: rejects the two
all-blank values and anything shorter than 19 bytes, requires `:`/`:`/space/
`:`/`:` at positions 4, 7, 10, 13, 16, and parses the six fixed-width digit
spans with `atou16`; bytes beyond position 18 are ignored. -/
def exifDateTimeFromAscii : List Char → Option (Nat × Nat × Nat × Nat × Nat × Nat)
  | y₃ :: y₂ :: y₁ :: y₀ :: c₁ :: mo₁ :: mo₀ :: c₂ :: d₁ :: d₀ :: c₃ ::
      h₁ :: h₀ :: c₄ :: mi₁ :: mi₀ :: c₅ :: s₁ :: s₀ :: rest =>
    if y₃ :: y₂ :: y₁ :: y₀ :: c₁ :: mo₁ :: mo₀ :: c₂ :: d₁ :: d₀ :: c₃ ::
        h₁ :: h₀ :: c₄ :: mi₁ :: mi₀ :: c₅ :: s₁ :: s₀ :: rest = blankDateTime1 ∨
       y₃ :: y₂ :: y₁ :: y₀ :: c₁ :: mo₁ :: mo₀ :: c₂ :: d₁ :: d₀ :: c₃ ::
        h₁ :: h₀ :: c₄ :: mi₁ :: mi₀ :: c₅ :: s₁ :: s₀ :: rest = blankDateTime2 then
      none
    else if c₁ = ':' ∧ c₂ = ':' ∧ c₃ = ' ' ∧ c₄ = ':' ∧ c₅ = ':' then
      match digitsVal [y₃, y₂, y₁, y₀], digitsVal [mo₁, mo₀], digitsVal [d₁, d₀],
          digitsVal [h₁, h₀], digitsVal [mi₁, mi₀], digitsVal [s₁, s₀] with
      | some y, some mo, some d, some h, some mi, some s =>
        some (y, mo, d, h, mi, s)
      | _, _, _, _, _, _ => none
    else none
  | _ => none

/-- `format!("{:02}", n)` as characters, for the two-digit values
(`≤ 99`) `from_ascii` can produce. -/
def pad2Chars (n : Nat) : List Char := [digitChar (n / 10 % 10), digitChar (n % 10)]

/-- `format!("{:04}", n)` as characters, for the four-digit values
(`≤ 9999`) `from_ascii` can produce. -/
def pad4Chars (n : Nat) : List Char :=
  [digitChar (n / 1000 % 10), digitChar (n / 100 % 10),
   digitChar (n / 10 % 10), digitChar (n % 10)]

/-- Modelled from `kamadak-exif`: the display text of a `DateTimeOriginal`
field whose value is the ASCII span `raw` — a value accepted by
`from_ascii` prints as `YYYY-MM-DD HH:MM:SS`, anything else falls back to
the default quoted ASCII rendering (escaping of special bytes is omitted;
the quotes alone already make the fallback unparseable as a datetime).
`.with_unit` appends nothing for this tag. -/
def exifDisplayDateTime (raw : List Char) : List Char :=
  match exifDateTimeFromAscii raw with
  | some (y, mo, d, h, mi, s) =>
    pad4Chars y ++ '-' :: pad2Chars mo ++ '-' :: pad2Chars d ++ ' ' ::
      pad2Chars h ++ ':' :: pad2Chars mi ++ ':' :: pad2Chars s
  | none => '"' :: (raw ++ ['"'])

/-- Consume up to `w` leading ASCII digits (maximal munch): digits consumed,
accumulated value, rest. -/
def grabDigits : Nat → Nat → Nat → List Char → Nat × Nat × List Char
  | 0, cnt, acc, cs => (cnt, acc, cs)
  | _ + 1, cnt, acc, [] => (cnt, acc, [])
  | w + 1, cnt, acc, c :: rest =>
    if c.isDigit then grabDigits w (cnt + 1) (acc * 10 + (c.toNat - 48)) rest
    else (cnt, acc, c :: rest)

/-- Parse between one and `w` leading digits. -/
def parseNum (w : Nat) (cs : List Char) : Option (Nat × List Char) :=
  match grabDigits w 0 0 cs with
  | (0, _, _) => none
  | (_ + 1, v, rest) => some (v, rest)

/-- Expect the literal character `c`. -/
def expectChar (c : Char) : List Char → Option (List Char)
  | [] => none
  | c₀ :: rest => if c₀ = c then some rest else none

/-- An optional leading `-`/`+` sign (chrono's signed year). -/
def splitSign : List Char → Bool × List Char
  | [] => (false, [])
  | c :: rest =>
    if c = '-' then (true, rest)
    else if c = '+' then (false, rest)
    else (false, c :: rest)

/-- Proleptic-Gregorian leap year (chrono). -/
def isLeapYear (y : Int) : Bool :=
  y % 4 == 0 && (!(y % 100 == 0) || y % 400 == 0)

/-- Days in a month of the proleptic-Gregorian calendar (0 for an invalid
month number). -/
def daysInMonth (y : Int) (mo : Nat) : Nat :=
  match mo with
  | 1 => 31
  | 2 => if isLeapYear y then 29 else 28
  | 3 => 31
  | 4 => 30
  | 5 => 31
  | 6 => 30
  | 7 => 31
  | 8 => 31
  | 9 => 30
  | 10 => 31
  | 11 => 30
  | 12 => 31
  | _ => 0

/-- Modelled from `chrono` (a dependency, not part of this repository):
`NaiveDateTime::parse_from_str(s, "%Y-%m-%d %H:%M:%S")`, projected onto the
`(dt.year(), dt.month())` pair the caller keeps.  `%Y` reads an optionally
signed year of up to four digits (enough for every string the exif display
path can produce), the literal space matches a possibly-empty whitespace
run, the whole input must be consumed, and the fields must form a valid
calendar date and time (chrono additionally accepts second `60` as a leap
second). -/
def chronoParseYmdHms (cs : List Char) : Option (Int × Nat) :=
  let sr := splitSign cs
  match parseNum 4 sr.2 with
  | none => none
  | some (yv, cs₁) =>
    match expectChar '-' cs₁ with
    | none => none
    | some cs₂ =>
      match parseNum 2 cs₂ with
      | none => none
      | some (mo, cs₃) =>
        match expectChar '-' cs₃ with
        | none => none
        | some cs₄ =>
          match parseNum 2 cs₄ with
          | none => none
          | some (d, cs₅) =>
            match parseNum 2 (cs₅.dropWhile Char.isWhitespace) with
            | none => none
            | some (h, cs₆) =>
              match expectChar ':' cs₆ with
              | none => none
              | some cs₇ =>
                match parseNum 2 cs₇ with
                | none => none
                | some (mi, cs₈) =>
                  match expectChar ':' cs₈ with
                  | none => none
                  | some cs₉ =>
                    match parseNum 2 cs₉ with
                    | none => none
                    | some (s, cs₁₀) =>
                      if cs₁₀ = [] then
                        let y : Int := if sr.1 then -(yv : Int) else (yv : Int)
                        if 1 ≤ mo ∧ mo ≤ 12 ∧ 1 ≤ d ∧ d ≤ daysInMonth y mo ∧
                            h ≤ 23 ∧ mi ≤ 59 ∧ s ≤ 60 then
                          some (y, mo)
                        else none
                      else none

/-- Outcome of a Rust call that may panic instead of returning. -/
inductive ExtractOutcome where
  | panicked : String → ExtractOutcome
  | value : Option (Int × Nat) → ExtractOutcome
deriving DecidableEq, Repr

/-- One file as `get_datetime_original` observes it: whether `File::open`
fails (and with what error), whether the EXIF container parses, and the raw
ASCII text of the `DateTimeOriginal` field when that field is present. -/
structure FileState where
  openErr : Option String
  containerOk : Bool
  dateTimeOriginal : Option String

/-- `get_datetime_original` (`src/lib.rs` lines 101–120).
`File::open(path).unwrap()` panics when the open fails (the open error is
carried by `panicked`); a container that does not parse returns `None`; a
missing `DateTimeOriginal` field returns `None`; otherwise the field's
display text is parsed by chrono and projected to `(year, month)`. -/
def get_datetime_original (f : FileState) : ExtractOutcome :=
  match f.openErr with
  | some e => .panicked e
  | none =>
    if f.containerOk then
      match f.dateTimeOriginal with
      | none => .value none
      | some raw => .value (chronoParseYmdHms (exifDisplayDateTime raw.data))
    else .value none

/-- The 19-character text `YYYY:MM:DD HH:MM:SS` with zero-padded fields. -/
def rawDateTimeChars (y mo d h mi s : Nat) : List Char :=
  pad4Chars y ++ ':' :: pad2Chars mo ++ ':' :: pad2Chars d ++ ' ' ::
    pad2Chars h ++ ':' :: pad2Chars mi ++ ':' :: pad2Chars s

theorem digitChar_isDigit {n : Nat} (h : n ≤ 9) : (digitChar n).isDigit = true := by
  interval_cases n <;> decide

theorem digitChar_toNat {n : Nat} (h : n ≤ 9) : (digitChar n).toNat = 48 + n := by
  interval_cases n <;> decide

theorem digitChar_ne_space {n : Nat} (h : n ≤ 9) : digitChar n ≠ ' ' := by
  interval_cases n <;> decide

theorem digitChar_ne_minus {n : Nat} (h : n ≤ 9) : digitChar n ≠ '-' := by
  interval_cases n <;> decide

theorem digitChar_ne_plus {n : Nat} (h : n ≤ 9) : digitChar n ≠ '+' := by
  interval_cases n <;> decide

theorem digitChar_not_ws {n : Nat} (h : n ≤ 9) :
    (digitChar n).isWhitespace = false := by
  interval_cases n <;> decide

theorem digitsVal_four {a b c e : Nat} (ha : a ≤ 9) (hb : b ≤ 9) (hc : c ≤ 9)
    (he : e ≤ 9) :
    digitsVal [digitChar a, digitChar b, digitChar c, digitChar e] =
      some (1000 * a + 100 * b + 10 * c + e) := by
  simp [digitsVal, digitChar_isDigit ha, digitChar_isDigit hb,
    digitChar_isDigit hc, digitChar_isDigit he, digitChar_toNat ha,
    digitChar_toNat hb, digitChar_toNat hc, digitChar_toNat he]
  omega

theorem digitsVal_two {a b : Nat} (ha : a ≤ 9) (hb : b ≤ 9) :
    digitsVal [digitChar a, digitChar b] = some (10 * a + b) := by
  simp [digitsVal, digitChar_isDigit ha, digitChar_isDigit hb,
    digitChar_toNat ha, digitChar_toNat hb]
  omega

theorem parseNum_two_digits {a b : Nat} (ha : a ≤ 9) (hb : b ≤ 9)
    (rest : List Char) :
    parseNum 2 (digitChar a :: digitChar b :: rest) = some (10 * a + b, rest) := by
  simp [parseNum, grabDigits, digitChar_isDigit ha, digitChar_isDigit hb,
    digitChar_toNat ha, digitChar_toNat hb]
  omega

theorem parseNum_four_digits {a b c e : Nat} (ha : a ≤ 9) (hb : b ≤ 9)
    (hc : c ≤ 9) (he : e ≤ 9) (rest : List Char) :
    parseNum 4 (digitChar a :: digitChar b :: digitChar c :: digitChar e :: rest) =
      some (1000 * a + 100 * b + 10 * c + e, rest) := by
  simp [parseNum, grabDigits, digitChar_isDigit ha, digitChar_isDigit hb,
    digitChar_isDigit hc, digitChar_isDigit he, digitChar_toNat ha,
    digitChar_toNat hb, digitChar_toNat hc, digitChar_toNat he]
  omega

theorem exifDateTimeFromAscii_raw {y mo d h mi s : Nat}
    (hy : y ≤ 9999) (hmo : mo ≤ 99) (hd : d ≤ 99) (hh : h ≤ 99)
    (hmi : mi ≤ 99) (hs : s ≤ 99) :
    exifDateTimeFromAscii (rawDateTimeChars y mo d h mi s) =
      some (y, mo, d, h, mi, s) := by
  have hy3 : y / 1000 % 10 ≤ 9 := by omega
  have hy2 : y / 100 % 10 ≤ 9 := by omega
  have hy1 : y / 10 % 10 ≤ 9 := by omega
  have hy0 : y % 10 ≤ 9 := by omega
  have hmo1 : mo / 10 % 10 ≤ 9 := by omega
  have hmo0 : mo % 10 ≤ 9 := by omega
  have hd1 : d / 10 % 10 ≤ 9 := by omega
  have hd0 : d % 10 ≤ 9 := by omega
  have hh1 : h / 10 % 10 ≤ 9 := by omega
  have hh0 : h % 10 ≤ 9 := by omega
  have hmi1 : mi / 10 % 10 ≤ 9 := by omega
  have hmi0 : mi % 10 ≤ 9 := by omega
  have hs1 : s / 10 % 10 ≤ 9 := by omega
  have hs0 : s % 10 ≤ 9 := by omega
  simp only [rawDateTimeChars, pad4Chars, pad2Chars, List.cons_append,
    List.nil_append, exifDateTimeFromAscii, blankDateTime1, blankDateTime2,
    digitsVal_four hy3 hy2 hy1 hy0, digitsVal_two hmo1 hmo0,
    digitsVal_two hd1 hd0, digitsVal_two hh1 hh0, digitsVal_two hmi1 hmi0,
    digitsVal_two hs1 hs0]
  rw [if_neg, if_pos]
  · simp only [Option.some.injEq, Prod.mk.injEq]
    omega
  · simp
  · rintro (hbl | hbl) <;>
    · simp only [List.cons.injEq] at hbl
      exact digitChar_ne_space hy3 hbl.1

theorem daysInMonth_le_31 (y : Int) (mo : Nat) : daysInMonth y mo ≤ 31 := by
  unfold daysInMonth
  split <;> first | omega | (split <;> omega)

theorem chronoParse_display {y mo d h mi s : Nat}
    (hy : y ≤ 9999) (hmoLo : 1 ≤ mo) (hmoHi : mo ≤ 12) (hdLo : 1 ≤ d)
    (hdHi : d ≤ daysInMonth (y : Int) mo) (hh : h ≤ 23) (hmi : mi ≤ 59)
    (hs : s ≤ 59) :
    chronoParseYmdHms (pad4Chars y ++ '-' :: pad2Chars mo ++ '-' ::
        pad2Chars d ++ ' ' :: pad2Chars h ++ ':' :: pad2Chars mi ++ ':' ::
        pad2Chars s) =
      some ((y : Int), mo) := by
  have hdB : d ≤ 31 := le_trans hdHi (daysInMonth_le_31 _ _)
  have hy3 : y / 1000 % 10 ≤ 9 := by omega
  have hy2 : y / 100 % 10 ≤ 9 := by omega
  have hy1 : y / 10 % 10 ≤ 9 := by omega
  have hy0 : y % 10 ≤ 9 := by omega
  have hmo1 : mo / 10 % 10 ≤ 9 := by omega
  have hmo0 : mo % 10 ≤ 9 := by omega
  have hd1 : d / 10 % 10 ≤ 9 := by omega
  have hd0 : d % 10 ≤ 9 := by omega
  have hh1 : h / 10 % 10 ≤ 9 := by omega
  have hh0 : h % 10 ≤ 9 := by omega
  have hmi1 : mi / 10 % 10 ≤ 9 := by omega
  have hmi0 : mi % 10 ≤ 9 := by omega
  have hs1 : s / 10 % 10 ≤ 9 := by omega
  have hs0 : s % 10 ≤ 9 := by omega
  have ey : 1000 * (y / 1000 % 10) + 100 * (y / 100 % 10) + 10 * (y / 10 % 10)
      + y % 10 = y := by omega
  have emo : 10 * (mo / 10 % 10) + mo % 10 = mo := by omega
  have ed : 10 * (d / 10 % 10) + d % 10 = d := by omega
  have eh : 10 * (h / 10 % 10) + h % 10 = h := by omega
  have emi : 10 * (mi / 10 % 10) + mi % 10 = mi := by omega
  have es : 10 * (s / 10 % 10) + s % 10 = s := by omega
  have hwsSpace : (' ').isWhitespace = true := by decide
  have hs60 : s ≤ 60 := by omega
  simp only [pad4Chars, pad2Chars, List.cons_append, List.nil_append,
    chronoParseYmdHms, splitSign]
  simp [if_neg (digitChar_ne_minus hy3), if_neg (digitChar_ne_plus hy3),
    parseNum_four_digits hy3 hy2 hy1 hy0, parseNum_two_digits hmo1 hmo0,
    parseNum_two_digits hd1 hd0, parseNum_two_digits hh1 hh0,
    parseNum_two_digits hmi1 hmi0, parseNum_two_digits hs1 hs0,
    expectChar, List.dropWhile_cons, hwsSpace, digitChar_not_ws hh1,
    ey, emo, ed, eh, emi, es, hmoLo, hmoHi, hdLo, hdHi, hh, hmi, hs60]

/-- C4: when the `DateTimeOriginal` field is present, its textual value is
parsed against the fixed pattern `YYYY:MM:DD HH:MM:SS`: a value of that
form — a valid zero-padded calendar date-time — yields `Some (year, month)`
from the extractor, and any value whose text fails the parse yields the
"no metadata" result (`None`), never an error. -/
theorem datetime_field_parse :
    (∀ y mo d h mi s : Nat, y ≤ 9999 → 1 ≤ mo → mo ≤ 12 → 1 ≤ d →
      d ≤ daysInMonth (y : Int) mo → h ≤ 23 → mi ≤ 59 → s ≤ 59 →
      get_datetime_original
          { openErr := none, containerOk := true,
            dateTimeOriginal := some ⟨rawDateTimeChars y mo d h mi s⟩ } =
        .value (some ((y : Int), mo))) ∧
    (∀ raw : String, chronoParseYmdHms (exifDisplayDateTime raw.data) = none →
      get_datetime_original
          { openErr := none, containerOk := true, dateTimeOriginal := some raw } =
        .value none) := by
  constructor
  · intro y mo d h mi s hy hmoLo hmoHi hdLo hdHi hh hmi hs
    have hdB : d ≤ 31 := le_trans hdHi (daysInMonth_le_31 _ _)
    simp only [get_datetime_original]
    rw [if_pos trivial]
    rw [show exifDisplayDateTime (rawDateTimeChars y mo d h mi s) =
          pad4Chars y ++ '-' :: pad2Chars mo ++ '-' :: pad2Chars d ++ ' ' ::
            pad2Chars h ++ ':' :: pad2Chars mi ++ ':' :: pad2Chars s by
      simp [exifDisplayDateTime,
        exifDateTimeFromAscii_raw hy (show mo ≤ 99 by omega)
          (show d ≤ 99 by omega) (show h ≤ 99 by omega)
          (show mi ≤ 99 by omega) (show s ≤ 99 by omega)]]
    rw [chronoParse_display hy hmoLo hmoHi hdLo hdHi hh hmi hs]
  · intro raw hparse
    simp [get_datetime_original, hparse]

/-- Witness for C4 at the concrete field value `2024:01:05 10:20:30` (both
directions: one parseable value, one unparseable value). -/
theorem datetime_field_parse_witness :
    ((2024 : Nat) ≤ 9999 ∧ (1 : Nat) ≤ 1 ∧ (1 : Nat) ≤ 12 ∧ (1 : Nat) ≤ 5 ∧
      (5 : Nat) ≤ daysInMonth ((2024 : Nat) : Int) 1 ∧ (10 : Nat) ≤ 23 ∧
      (20 : Nat) ≤ 59 ∧ (30 : Nat) ≤ 59) ∧
    get_datetime_original
        { openErr := none, containerOk := true,
          dateTimeOriginal := some ⟨rawDateTimeChars 2024 1 5 10 20 30⟩ } =
      .value (some (((2024 : Nat) : Int), 1)) ∧
    chronoParseYmdHms (exifDisplayDateTime ("garbage" : String).data) = none ∧
    get_datetime_original
        { openErr := none, containerOk := true, dateTimeOriginal := some "garbage" } =
      .value none :=
  ⟨by decide,
   datetime_field_parse.1 2024 1 5 10 20 30 (by decide) (by decide) (by decide)
     (by decide) (by decide) (by decide) (by decide) (by decide),
   by decide,
   datetime_field_parse.2 "garbage" (by decide)⟩

/-- Outcome of `find`: the Rust function takes `&mut Tree` and returns
`Result<(), Box<dyn Error>>`, so `finished t err` carries the final tree
state plus the returned error; `panicked` is a panic escaping from
`get_datetime_original`'s `unwrap`. -/
inductive FindOutcome where
  | panicked : String → FindOutcome
  | finished : Tree → Option String → FindOutcome

/-- `Image::new(path)` of `src/lib.rs` — that `Image` has no separate file
name (nothing on the `lib.rs` path ever reads one), so the path fills both
fields here. -/
def libImage (p : String) : Image := { name := p, path := p }

/-- The extraction loop of `find` (`src/lib.rs` lines 87–96): items with an
extracted datetime go to that key, items without go to the `(0, 0)`
sentinel. -/
def findLoop (meta : String → ExtractOutcome) :
    List String → Tree → FindOutcome
  | [], t => .finished t none
  | p :: rest, t =>
    match meta p with
    | .panicked e => .panicked e
    | .value (some dt) => findLoop meta rest (t.insert dt (libImage p))
    | .value none => findLoop meta rest (t.insert (0, 0) (libImage p))

/-- The error message of the empty-walk case (`src/lib.rs` line 83). -/
def notFoundMsg : String := "Did not find any media with metadata."

/-- `find` (`src/lib.rs` lines 76–99): per-entry walker errors are silently
dropped (`filter_map(Result::ok)`), emptiness is checked by peeking at the
first surviving element, then the extraction loop runs.  `meta` abstracts
`get_datetime_original` over the file system. -/
def find (walker : List (Except String String))
    (meta : String → ExtractOutcome) (t : Tree) : FindOutcome :=
  let images := walker.filterMap Except.toOption
  match images.head? with
  | none => .finished t (some notFoundMsg)
  | some _ => findLoop meta images t

/-- Process-level result of a run. -/
inductive RunResult where
  | panicked : String → RunResult
  | errored : String → RunResult
  | ok : RunResult
deriving DecidableEq, Repr

/-- The spec's orchestration (§2) over the repository's own pieces:
`find(walker, &mut tree)?` followed by materialization through
`Tree::save`.  (`lib.rs`'s `run` applies the same `?` to `find` and then
only prints; composing with `save` makes "nothing is written to the
destination" statable.)  Returns the filesystem operations performed and
the final status. -/
def findThenSave (walker : List (Except String String))
    (meta : String → ExtractOutcome) (t : Tree) (dest : String)
    (fs : FsOp → Option String) : List FsOp × RunResult :=
  match find walker meta t with
  | .panicked e => ([], .panicked e)
  | .finished _ (some e) => ([], .errored e)
  | .finished t' none =>
    match t'.save dest fs with
    | (ops, some e) => (ops, .errored e)
    | (ops, none) => (ops, .ok)

/-- C6: if the walk, after filtering, yields zero candidate paths (the peek
at the first element of the filtered sequence finds nothing), `find`
returns the "no media found" error before any metadata extraction — the
result does not depend on the extractor at all — the grouping index is
returned unchanged, and nothing is written to the destination. -/
theorem no_media_short_circuit
    (walker : List (Except String String))
    (meta meta' : String → ExtractOutcome) (t : Tree) (dest : String)
    (fs : FsOp → Option String)
    (hempty : (walker.filterMap Except.toOption).head? = none) :
    find walker meta t = .finished t (some notFoundMsg) ∧
    find walker meta t = find walker meta' t ∧
    findThenSave walker meta t dest fs = ([], .errored notFoundMsg) := by
  have h1 : ∀ m : String → ExtractOutcome,
      find walker m t = .finished t (some notFoundMsg) := by
    intro m
    simp only [find]
    rw [hempty]
  exact ⟨h1 meta, (h1 meta).trans (h1 meta').symm,
    by simp [findThenSave, h1 meta]⟩

/-- Witness for C6: a walk that yields only a per-entry error (so the
filtered sequence is empty although the walk itself is not). -/
theorem no_media_short_circuit_witness :
    (([Except.error "permission denied"] :
        List (Except String String)).filterMap Except.toOption).head? = none ∧
    (find [Except.error "permission denied"]
        (fun _ => ExtractOutcome.value none) (Tree.yearMonth []) =
      FindOutcome.finished (Tree.yearMonth []) (some notFoundMsg) ∧
    find [Except.error "permission denied"]
        (fun _ => ExtractOutcome.value none) (Tree.yearMonth []) =
      find [Except.error "permission denied"]
        (fun _ => ExtractOutcome.panicked "boom") (Tree.yearMonth []) ∧
    findThenSave [Except.error "permission denied"]
        (fun _ => ExtractOutcome.value none) (Tree.yearMonth []) "dest"
        (fun _ => none) =
      ([], RunResult.errored notFoundMsg)) :=
  ⟨rfl, no_media_short_circuit _ _ _ _ _ _ rfl⟩

/-- C7: a file that cannot be opened for binary read makes the extractor
panic (`File::open(path).unwrap()`): the outcome is neither a value nor a
recoverable error, and in particular not the "no metadata" `None` that
container-parse failures and missing fields receive; the extraction loop
propagates the panic, so the failure is unrecoverable for the whole run. -/
theorem open_failure_uncaught :
    (∀ (f : FileState) (e : String), f.openErr = some e →
      get_datetime_original f = .panicked e) ∧
    (∀ f : FileState, f.openErr = none → f.containerOk = false →
      get_datetime_original f = .value none) ∧
    (∀ f : FileState, f.openErr = none → f.containerOk = true →
      f.dateTimeOriginal = none → get_datetime_original f = .value none) ∧
    (∀ (meta : String → ExtractOutcome) (p : String) (rest : List String)
        (t : Tree) (e : String), meta p = .panicked e →
      findLoop meta (p :: rest) t = .panicked e) := by
  refine ⟨?_, ?_, ?_, ?_⟩
  · intro f e h
    simp [get_datetime_original, h]
  · intro f h hc
    simp [get_datetime_original, h, hc]
  · intro f h hc hdt
    simp [get_datetime_original, h, hc, hdt]
  · intro meta p rest t e h
    simp [findLoop, h]

/-- Witness for C7 at a concrete unreadable file. -/
theorem open_failure_uncaught_witness :
    (({ openErr := some "os error 13", containerOk := true,
        dateTimeOriginal := none : FileState }).openErr = some "os error 13") ∧
    get_datetime_original
        { openErr := some "os error 13", containerOk := true,
          dateTimeOriginal := none } =
      .panicked "os error 13" ∧
    ((fun _ : String => ExtractOutcome.panicked "os error 13") "a.jpg" =
        ExtractOutcome.panicked "os error 13") ∧
    findLoop (fun _ => ExtractOutcome.panicked "os error 13") ["a.jpg"]
        (Tree.yearMonth []) =
      FindOutcome.panicked "os error 13" :=
  ⟨rfl,
   open_failure_uncaught.1
     { openErr := some "os error 13", containerOk := true,
       dateTimeOriginal := none } "os error 13" rfl,
   rfl,
   open_failure_uncaught.2.2.2 (fun _ => ExtractOutcome.panicked "os error 13")
     "a.jpg" [] (Tree.yearMonth []) "os error 13" rfl⟩

/-- The fixed pattern array `PATTERNS` (`src/lib.rs` line 12); note the last
entry is the literal `.mov`, not `*.mov`. -/
def PATTERNS : List String := ["*.png", "*.jpg", "*.jpeg", "*.heic", ".mov"]

/-- Position inside a glob pattern scan: outside any class, just after `[`,
just after `[!`, or inside a class body. -/
inductive GlobMode where
  | norm : GlobMode
  | classStart : GlobMode
  | classFirst : GlobMode
  | classBody : GlobMode
deriving DecidableEq

/-- Modelled from the `globset` crate's glob parser (a dependency, not part
of this repository): scans a pattern and reports whether it compiles.
Faithful for the syntax errors relevant here: a dangling `\` escape (inside
or outside a character class), an unclosed `[` class, a `}` without `{`, an
unclosed or nested `{` alternates group, and a recursive `**` glued to a
non-separator.  Character-class range validity is not modelled (no claim
depends on it). -/
def scanGlob : List Char → GlobMode → Bool → Option Char → Bool
  | [], mode, inAlt, _ => decide (mode = .norm) && !inAlt
  | c :: rest, .classStart, inAlt, prev =>
    if c = '!' then scanGlob rest .classFirst inAlt prev
    else if c = '\\' then
      match rest with
      | [] => false
      | _ :: rest2 => scanGlob rest2 .classBody inAlt prev
    else scanGlob rest .classBody inAlt prev
  | c :: rest, .classFirst, inAlt, prev =>
    if c = '\\' then
      match rest with
      | [] => false
      | _ :: rest2 => scanGlob rest2 .classBody inAlt prev
    else scanGlob rest .classBody inAlt prev
  | c :: rest, .classBody, inAlt, prev =>
    if c = ']' then scanGlob rest .norm inAlt (some ']')
    else if c = '\\' then
      match rest with
      | [] => false
      | _ :: rest2 => scanGlob rest2 .classBody inAlt prev
    else scanGlob rest .classBody inAlt prev
  | '*' :: '*' :: rest, .norm, inAlt, prev =>
    if (prev = none ∨ prev = some '/') ∧
        (rest.head? = none ∨ rest.head? = some '/') then
      scanGlob rest .norm inAlt (some '*')
    else false
  | '[' :: rest, .norm, inAlt, _ => scanGlob rest .classStart inAlt (some '[')
  | '{' :: rest, .norm, inAlt, _ =>
    if inAlt then false else scanGlob rest .norm true (some '{')
  | '}' :: rest, .norm, inAlt, _ =>
    if inAlt then scanGlob rest .norm false (some '}') else false
  | '\\' :: rest, .norm, inAlt, _ =>
    match rest with
    | [] => false
    | c₂ :: rest2 => scanGlob rest2 .norm inAlt (some c₂)
  | c :: rest, .norm, inAlt, _ => scanGlob rest .norm inAlt (some c)

/-- `globset::Glob::new` succeeds on `s`. -/
def globOk (s : String) : Bool := scanGlob s.data .norm false none

/-- The configured walker —
`GlobWalkerBuilder::from_patterns(base, patterns).max_depth(4)
.follow_links(true).case_insensitive(true)` (`src/lib.rs` lines 68–74). -/
structure GlobWalker where
  base : String
  patterns : List String
  maxDepth : Nat
  followLinks : Bool
  caseInsensitive : Bool
deriving DecidableEq, Repr

/-- `build_glob_walker` (`src/lib.rs` lines 68–74): `build()` compiles
every pattern; any malformed pattern aborts construction with a
`GlobError` before any walking can happen. -/
def build_glob_walker (path : String) (patterns : List String) :
    Except String GlobWalker :=
  if patterns.all globOk then
    .ok { base := path, patterns := patterns, maxDepth := 4,
          followLinks := true, caseInsensitive := true }
  else .error "error parsing glob"

/-- The validated configuration the CLI shell hands over
(`src/arguments.rs`). -/
structure Arguments where
  path : String
  years : Bool
  months : Bool

/-- `run` (`src/lib.rs` lines 123–159) with the world abstracted: `fsWalk`
yields the walk results a walker configuration produces, `meta` the
per-file metadata outcomes.  `run` builds the walker over `args.path` with
the fixed `PATTERNS` (`?`), builds the tree from the flags, runs `find`
(`?`), then prints the summary and the tree (output not modelled). -/
def run (args : Arguments) (fsWalk : GlobWalker → List (Except String String))
    (meta : String → ExtractOutcome) : RunResult :=
  match build_glob_walker args.path PATTERNS with
  | .error e => .errored e
  | .ok walker =>
    match find (fsWalk walker) meta (Lib.build_tree args.years args.months) with
    | .panicked e => .panicked e
    | .finished _ (some e) => .errored e
    | .finished _ none => .ok

/-- C9: the discovery walker is always constructed over the source root
with exactly the fixed pattern set `{*.png, *.jpg, *.jpeg, *.heic, .mov}`,
case-insensitive, maximum depth 4, following symbolic links — `run`
consults the filesystem only through that exact configuration — and a
malformed pattern makes construction fail immediately as a configuration
error rather than being skipped at walk time (shown at the repo's own test
pattern `"\\"`). -/
theorem walker_fixed_configuration :
    (∀ path : String, build_glob_walker path PATTERNS =
      .ok { base := path, patterns := PATTERNS, maxDepth := 4,
            followLinks := true, caseInsensitive := true }) ∧
    (∀ (args : Arguments)
        (fsWalk fsWalk' : GlobWalker → List (Except String String))
        (meta : String → ExtractOutcome),
      fsWalk { base := args.path, patterns := PATTERNS, maxDepth := 4,
               followLinks := true, caseInsensitive := true } =
        fsWalk' { base := args.path, patterns := PATTERNS, maxDepth := 4,
                  followLinks := true, caseInsensitive := true } →
      run args fsWalk meta = run args fsWalk' meta) ∧
    (∀ (path : String) (patterns : List String) (p : String),
      p ∈ patterns → globOk p = false →
      build_glob_walker path patterns = .error "error parsing glob") ∧
    globOk "\\" = false := by
  have hall : PATTERNS.all globOk = true := by decide
  refine ⟨?_, ?_, ?_, by decide⟩
  · intro path
    simp [build_glob_walker, hall]
  · intro args fsWalk fsWalk' meta h
    simp only [run, build_glob_walker, hall, if_pos]
    rw [h]
  · intro path patterns p hp hbad
    have : patterns.all globOk = false := by
      rcases hfold : patterns.all globOk with _ | _
      · rfl
      · exact absurd (List.all_eq_true.mp hfold p hp) (by simp [hbad])
    simp [build_glob_walker, this]

/-- Witness for C9 at a concrete configuration and at the repo test's
malformed pattern `"\\"`. -/
theorem walker_fixed_configuration_witness :
    ((fun _ : GlobWalker => ([] : List (Except String String)))
        { base := "/pics", patterns := PATTERNS, maxDepth := 4,
          followLinks := true, caseInsensitive := true } =
      (fun _ : GlobWalker => ([] : List (Except String String)))
        { base := "/pics", patterns := PATTERNS, maxDepth := 4,
          followLinks := true, caseInsensitive := true }) ∧
    ("\\" ∈ ["\\"] ∧ globOk "\\" = false) ∧
    run { path := "/pics", years := true, months := true }
        (fun _ => []) (fun _ => ExtractOutcome.value none) =
      run { path := "/pics", years := true, months := true }
        (fun _ => []) (fun _ => ExtractOutcome.value none) ∧
    build_glob_walker "/pics" ["\\"] = .error "error parsing glob" :=
  ⟨rfl, ⟨List.mem_singleton.mpr rfl, by decide⟩,
   walker_fixed_configuration.2.1 { path := "/pics", years := true, months := true }
     (fun _ => []) (fun _ => []) (fun _ => ExtractOutcome.value none) rfl,
   walker_fixed_configuration.2.2.1 "/pics" ["\\"] "\\"
     (List.mem_singleton.mpr rfl) (by decide)⟩

end ImgSort
